import Mathlib

set_option autoImplicit false

/-!
Verification of the opsorch-mcp request pipeline against its source
(`src/index.ts`, `src/logger.ts`).

The embedding models JavaScript values that originate from parsed JSON as
the mutual inductive `Js` (numbers are modelled as integers: every numeric
literal exercised by this code path is integral, and floating-point
semantics is out of scope).  `JSON.stringify` and `JSON.parse` — the
platform primitives used by `coreRequest` and `asContent` — are embedded as
an executable printer (`printJs` / `printPrettyJs`) and a fuel-indexed
recursive-descent parser (`parseJson`) over the JSON grammar.  `fetch` is
embedded by passing the observable outcome of the single network round
trip (`FetchOutcome`) into `coreRequest`, which then mirrors the source's
control flow: the list of issued HTTP calls and of logger invocations are
returned alongside the result so that side-effect claims are provable.
-/

mutual
/-- JavaScript value as produced by `JSON.parse` (mutual with its own
array/object spines so that all recursion stays structural). -/
inductive Js where
  | null
  | bool (b : Bool)
  | num (n : Int)
  | str (s : String)
  | arr (xs : JsList)
  | obj (fs : JsFields)
inductive JsList where
  | nil
  | cons (v : Js) (tl : JsList)
inductive JsFields where
  | nil
  | cons (k : String) (v : Js) (tl : JsFields)
end

/-! ## Decimal digits (model of JavaScript's integer-to-string conversion) -/

/-- The character for a decimal digit. -/
def digitChar : Nat → Char
  | 0 => '0' | 1 => '1' | 2 => '2' | 3 => '3' | 4 => '4'
  | 5 => '5' | 6 => '6' | 7 => '7' | 8 => '8' | _ => '9'

/-- Decimal value of a digit character. -/
def digitVal (c : Char) : Option Nat :=
  if 48 ≤ c.toNat ∧ c.toNat ≤ 57 then some (c.toNat - 48) else none

/-- Fuel-indexed decimal printer for naturals (most significant digit first). -/
def printNatAux : Nat → Nat → List Char
  | 0, _ => []
  | fuel+1, n =>
    if n < 10 then [digitChar n]
    else printNatAux fuel (n / 10) ++ [digitChar (n % 10)]

/-- Decimal digits of a natural number. -/
def printNatChars (n : Nat) : List Char := printNatAux (n + 1) n

/-- Decimal rendering of an integer, as JavaScript renders integral numbers. -/
def printInt (n : Int) : List Char :=
  if n < 0 then '-' :: printNatChars n.natAbs else printNatChars n.toNat

/-- Decimal string of a natural number (used for `${res.status}`). -/
def natToString (n : Nat) : String := String.mk (printNatChars n)

/-! ## JSON string escaping (model of `JSON.stringify` string output) -/

/-- Hexadecimal digit character (lower case, as `JSON.stringify` emits). -/
def hexDigitChar : Nat → Char
  | 0 => '0' | 1 => '1' | 2 => '2' | 3 => '3' | 4 => '4' | 5 => '5'
  | 6 => '6' | 7 => '7' | 8 => '8' | 9 => '9' | 10 => 'a' | 11 => 'b'
  | 12 => 'c' | 13 => 'd' | 14 => 'e' | _ => 'f'

/-- Value of a hexadecimal digit character. -/
def hexVal (c : Char) : Option Nat :=
  if 48 ≤ c.toNat ∧ c.toNat ≤ 57 then some (c.toNat - 48)
  else if 97 ≤ c.toNat ∧ c.toNat ≤ 102 then some (c.toNat - 87)
  else if 65 ≤ c.toNat ∧ c.toNat ≤ 70 then some (c.toNat - 55)
  else none

/-- The six-character `\u00XX` escape for a control character. -/
def uEscape (n : Nat) : List Char :=
  '\\' :: 'u' :: '0' :: '0' :: hexDigitChar (n / 16) :: [hexDigitChar (n % 16)]

/-- `JSON.stringify`'s escaping of one character inside a string literal. -/
def escapeChar (c : Char) : List Char :=
  if c = '"' then ['\\', '"']
  else if c = '\\' then ['\\', '\\']
  else if c = '\x08' then ['\\', 'b']
  else if c = '\x0c' then ['\\', 'f']
  else if c = '\n' then ['\\', 'n']
  else if c = '\r' then ['\\', 'r']
  else if c = '\t' then ['\\', 't']
  else if c.toNat < 32 then uEscape c.toNat
  else [c]

/-- Escape every character of a string body. -/
def escapeList : List Char → List Char
  | [] => []
  | c :: cs => escapeChar c ++ escapeList cs

/-- A JSON string literal including the surrounding quotes. -/
def printStr (s : String) : List Char := '"' :: (escapeList s.data ++ ['"'])

/-! ## Compact JSON printer (model of `JSON.stringify(value)`) -/

mutual
/-- Compact JSON serialization, as `JSON.stringify(body)` produces for the
request body in `coreRequest`. -/
def printJs : Js → List Char
  | .null => "null".data
  | .bool true => "true".data
  | .bool false => "false".data
  | .num n => printInt n
  | .str s => printStr s
  | .arr xs => '[' :: (printList xs ++ [']'])
  | .obj fs => '{' :: (printFieldList fs ++ ['}'])

/-- Comma-separated array elements. -/
def printList : JsList → List Char
  | .nil => []
  | .cons v tl =>
    printJs v ++ (match tl with
      | .nil => []
      | .cons _ _ => ',' :: printList tl)

/-- Comma-separated object members, `"key":value` each. -/
def printFieldList : JsFields → List Char
  | .nil => []
  | .cons k v tl =>
    printStr k ++ ':' :: printJs v ++ (match tl with
      | .nil => []
      | .cons _ _ _ => ',' :: printFieldList tl)
end

/-- `JSON.stringify(value)` for the values of this model. -/
def stringifyJs (v : Js) : String := String.mk (printJs v)

/-! ## Pretty JSON printer (model of `JSON.stringify(value, null, 2)`) -/

/-- `n` spaces of indentation. -/
def indentChars (n : Nat) : List Char := List.replicate n ' '

mutual
/-- Two-space-indented JSON serialization, as `JSON.stringify(value, null, 2)`
produces in `asContent` (`ind` is the indentation of the enclosing value). -/
def printPrettyJs (ind : Nat) : Js → List Char
  | .null => "null".data
  | .bool true => "true".data
  | .bool false => "false".data
  | .num n => printInt n
  | .str s => printStr s
  | .arr xs =>
    match xs with
    | .nil => ['[', ']']
    | .cons _ _ =>
      '[' :: '\n' :: (indentChars (ind + 2) ++ printPrettyList (ind + 2) xs
        ++ '\n' :: (indentChars ind ++ [']']))
  | .obj fs =>
    match fs with
    | .nil => ['{', '}']
    | .cons _ _ _ =>
      '{' :: '\n' :: (indentChars (ind + 2) ++ printPrettyFieldList (ind + 2) fs
        ++ '\n' :: (indentChars ind ++ ['}']))

/-- Pretty array elements, separated by a comma, newline and indentation. -/
def printPrettyList (ind : Nat) : JsList → List Char
  | .nil => []
  | .cons v tl =>
    printPrettyJs ind v ++ (match tl with
      | .nil => []
      | .cons _ _ => ',' :: '\n' :: (indentChars ind ++ printPrettyList ind tl))

/-- Pretty object members, `"key": value` each. -/
def printPrettyFieldList (ind : Nat) : JsFields → List Char
  | .nil => []
  | .cons k v tl =>
    printStr k ++ ':' :: ' ' :: printPrettyJs ind v ++ (match tl with
      | .nil => []
      | .cons _ _ _ => ',' :: '\n' :: (indentChars ind ++ printPrettyFieldList ind tl))
end

/-- `JSON.stringify(value, null, 2)` for the values of this model. -/
def stringifyPretty (v : Js) : String := String.mk (printPrettyJs 0 v)

/-! ## JSON parser (model of `JSON.parse`)

Recursive-descent parser for the JSON grammar, restricted to integral
number literals (a fraction or exponent part is rejected; floating-point
values are out of scope for this model).  The fuel argument only bounds
the nesting of recursive values; `parseJson` supplies enough fuel for any
input of the given length. -/

/-- JSON whitespace. -/
def isWsChar (c : Char) : Bool := c = ' ' || c = '\t' || c = '\n' || c = '\r'

/-- Skip leading JSON whitespace. -/
def skipWs : List Char → List Char
  | [] => []
  | c :: cs => if isWsChar c then skipWs cs else c :: cs

/-- Unescape a single-character JSON string escape. -/
def unescapeChar (e : Char) : Option Char :=
  if e = '"' then some '"'
  else if e = '\\' then some '\\'
  else if e = '/' then some '/'
  else if e = 'b' then some '\x08'
  else if e = 'f' then some '\x0c'
  else if e = 'n' then some '\n'
  else if e = 'r' then some '\r'
  else if e = 't' then some '\t'
  else none

mutual
/-- Parse the body of a JSON string literal after the opening quote, up to
and including the closing quote; yields the decoded characters and the
remainder. -/
def parseStringBody : List Char → Option (List Char × List Char)
  | [] => none
  | c :: cs =>
    if c = '"' then some ([], cs)
    else if c = '\\' then parseAfterBackslash cs
    else if c.toNat < 32 then none
    else
      match parseStringBody cs with
      | some (s, r) => some (c :: s, r)
      | none => none

/-- Decode what follows a backslash inside a string literal. -/
def parseAfterBackslash : List Char → Option (List Char × List Char)
  | [] => none
  | e :: cs2 =>
    if e = 'u' then parseHexEscape cs2
    else
      match unescapeChar e with
      | some ch =>
        match parseStringBody cs2 with
        | some (s, r) => some (ch :: s, r)
        | none => none
      | none => none

/-- Decode a four-hex-digit escape.  Escapes whose code point is not a
Unicode scalar value (surrogates) are rejected; the printer never emits
them. -/
def parseHexEscape : List Char → Option (List Char × List Char)
  | a :: b :: c3 :: d :: cs3 =>
    match hexVal a, hexVal b, hexVal c3, hexVal d with
    | some ha, some hb, some hc, some hd =>
      let v := ((ha * 16 + hb) * 16 + hc) * 16 + hd
      if v < 55296 then
        match parseStringBody cs3 with
        | some (s, r) => some (Char.ofNat v :: s, r)
        | none => none
      else none
    | _, _, _, _ => none
  | _ => none
end

/-- Consume a run of decimal digits, extending the accumulator. -/
def parseDigitsAux : List Char → Nat → Nat × List Char
  | [], acc => (acc, [])
  | c :: cs, acc =>
    match digitVal c with
    | some d => parseDigitsAux cs (acc * 10 + d)
    | none => (acc, c :: cs)

/-- Parse the integer part of a JSON number (enforcing the no-leading-zero
rule of the grammar). -/
def parseNumberBody : List Char → Option (Nat × List Char)
  | [] => none
  | c :: cs =>
    match digitVal c with
    | none => none
    | some d =>
      if d = 0 then
        match cs with
        | [] => some (0, [])
        | c2 :: _ => if (digitVal c2).isSome then none else some (0, cs)
      else some (parseDigitsAux cs d)

/-- After an integer part, a fraction or exponent would make the literal
non-integral; such input is outside this model and rejected. -/
def intBoundary : List Char → Bool
  | [] => true
  | c :: _ => !(c = '.' || c = 'e' || c = 'E')

mutual
/-- Parse one JSON value (after skipping leading whitespace). -/
def parseVal : Nat → List Char → Option (Js × List Char)
  | 0, _ => none
  | fuel+1, cs =>
    match skipWs cs with
    | [] => none
    | c :: cs1 =>
      if c = 'n' then
        match cs1 with
        | 'u' :: 'l' :: 'l' :: r => some (.null, r)
        | _ => none
      else if c = 't' then
        match cs1 with
        | 'r' :: 'u' :: 'e' :: r => some (.bool true, r)
        | _ => none
      else if c = 'f' then
        match cs1 with
        | 'a' :: 'l' :: 's' :: 'e' :: r => some (.bool false, r)
        | _ => none
      else if c = '"' then
        match parseStringBody cs1 with
        | some (s, r) => some (.str (String.mk s), r)
        | none => none
      else if c = '[' then
        match skipWs cs1 with
        | [] => none
        | c2 :: cs2 =>
          if c2 = ']' then some (.arr .nil, cs2)
          else
            match parseItems fuel (c2 :: cs2) with
            | some (vs, r) => some (.arr vs, r)
            | none => none
      else if c = '{' then
        match skipWs cs1 with
        | [] => none
        | c2 :: cs2 =>
          if c2 = '}' then some (.obj .nil, cs2)
          else
            match parseMembers fuel (c2 :: cs2) with
            | some (fs, r) => some (.obj fs, r)
            | none => none
      else if c = '-' then
        match parseNumberBody cs1 with
        | some (n, r) => if intBoundary r then some (.num (-(Int.ofNat n)), r) else none
        | none => none
      else
        match parseNumberBody (c :: cs1) with
        | some (n, r) => if intBoundary r then some (.num (Int.ofNat n), r) else none
        | none => none

/-- Parse the elements of a non-empty JSON array, up to and including the
closing bracket. -/
def parseItems : Nat → List Char → Option (JsList × List Char)
  | 0, _ => none
  | fuel+1, cs =>
    match parseVal fuel cs with
    | none => none
    | some (v, r) =>
      match skipWs r with
      | [] => none
      | c :: r2 =>
        if c = ',' then
          match parseItems fuel r2 with
          | some (vs, r3) => some (.cons v vs, r3)
          | none => none
        else if c = ']' then some (.cons v .nil, r2)
        else none

/-- Parse the members of a non-empty JSON object, up to and including the
closing brace. -/
def parseMembers : Nat → List Char → Option (JsFields × List Char)
  | 0, _ => none
  | fuel+1, cs =>
    match skipWs cs with
    | [] => none
    | c :: cs1 =>
      if c = '"' then
        match parseStringBody cs1 with
        | none => none
        | some (k, r) =>
          match skipWs r with
          | [] => none
          | c2 :: r2 =>
            if c2 = ':' then
              match parseVal fuel r2 with
              | none => none
              | some (v, r3) =>
                match skipWs r3 with
                | [] => none
                | c3 :: r4 =>
                  if c3 = ',' then
                    match parseMembers fuel r4 with
                    | some (fs, r5) => some (.cons (String.mk k) v fs, r5)
                    | none => none
                  else if c3 = '}' then some (.cons (String.mk k) v .nil, r4)
                  else none
            else none
      else none
end

/-- `JSON.parse(text)`: parse a complete JSON document, allowing trailing
whitespace; `none` models a thrown `SyntaxError`. -/
def parseJson (text : String) : Option Js :=
  match parseVal (text.data.length + 1) text.data with
  | some (v, rest) =>
    match skipWs rest with
    | [] => some v
    | _ :: _ => none
  | none => none

/-! ## Derived notions used by the round-trip development -/

/-- Is the character a decimal digit? -/
def isDigitCh (c : Char) : Bool := (digitVal c).isSome

/-- The folding step of digit accumulation. -/
def digitStep (a : Nat) (c : Char) : Nat := a * 10 + ((digitVal c).getD 0)

/-- Boundary condition after a printed number: the remaining input neither
extends the digit run nor turns the literal into a fraction or exponent. -/
def numBoundary : List Char → Bool
  | [] => true
  | c :: _ => !(isDigitCh c) && !(c = '.' || c = 'e' || c = 'E')

mutual
/-- Parser fuel sufficient for a value (one unit per `parseVal` descent). -/
def fuelNeed : Js → Nat
  | .null => 1
  | .bool _ => 1
  | .num _ => 1
  | .str _ => 1
  | .arr xs => 1 + listFuel xs
  | .obj fs => 1 + fieldsFuel fs

/-- Fuel sufficient for `parseItems` on a printed element list. -/
def listFuel : JsList → Nat
  | .nil => 0
  | .cons v tl => 1 + max (fuelNeed v) (listFuel tl)

/-- Fuel sufficient for `parseMembers` on a printed member list. -/
def fieldsFuel : JsFields → Nat
  | .nil => 0
  | .cons _ v tl => 1 + max (fuelNeed v) (fieldsFuel tl)
end

/-- Is the character acceptable as the first character of a printed value
(not whitespace, not a closing bracket)? -/
def valueHead (c : Char) : Bool := !(isWsChar c) && !(c = ']') && !(c = '}')

/-! ## Logger (`src/logger.ts`)

The call sites of `log` pass literal level names, so the call level is the
four-valued `LogLevel`.  The configured level, however, is whatever string
`parseLogLevel` returns: its `normalized in LEVEL_ORDER` test uses the
JavaScript `in` operator, which also sees the inherited `Object.prototype`
property names — of which `constructor` and `__proto__` survive
lowercasing — and the following `as LogLevel` cast is unchecked, so those
two strings flow through as the configured level.  `LEVEL_ORDER[s]` for
them is an inherited object whose numeric coercion is NaN, and a `<`
comparison against NaN is false; `levelRank`/`rankLt` model this with
`none` for the non-numeric case. -/

/-- The four logger levels of `LEVEL_ORDER` (the levels used at call
sites). -/
inductive LogLevel where
  | debug
  | info
  | warn
  | error
deriving DecidableEq

/-- `LEVEL_ORDER`: the numeric rank of each level. -/
def levelOrder : LogLevel → Nat
  | .debug => 10
  | .info => 20
  | .warn => 30
  | .error => 40

/-- ASCII lowercasing (sufficient for the level names this configuration
distinguishes). -/
def lowerAscii (s : String) : String := String.mk (s.data.map Char.toLower)

/-- The runtime result of `normalized in LEVEL_ORDER`: the object's four
own keys plus the inherited prototype property names that remain
all-lowercase after the preceding `toLowerCase`. -/
def inLevelOrder (s : String) : Bool :=
  s = "debug" || s = "info" || s = "warn" || s = "error"
    || s = "constructor" || s = "__proto__"

/-- `parseLogLevel` as it executes (`none` models an unset variable): the
returned value is a string — the `as LogLevel` cast does not check — with
`info` as the fallback. -/
def parseLogLevel (value : Option String) : String :=
  match value with
  | none => "info"
  | some v =>
    if v = "" then "info"
    else
      let normalized := lowerAscii v
      if inLevelOrder normalized then normalized else "info"

/-- `LEVEL_ORDER[s]` as a runtime lookup: the four own keys carry numeric
ranks; anything else (the inherited prototype objects) coerces to NaN,
modelled as `none`. -/
def levelRank (s : String) : Option Nat :=
  if s = "debug" then some 10
  else if s = "info" then some 20
  else if s = "warn" then some 30
  else if s = "error" then some 40
  else none

/-- JavaScript `<` on rank values: false whenever either side is NaN. -/
def rankLt (a b : Option Nat) : Bool :=
  match a, b with
  | some x, some y => decide (x < y)
  | _, _ => false

/-- The guard of `log`: a call at level `callLevel` produces output unless
`LEVEL_ORDER[level] < LEVEL_ORDER[currentLevel]`. -/
def logEmits (currentLevel : String) (callLevel : LogLevel) : Bool :=
  if rankLt (some (levelOrder callLevel)) (levelRank currentLevel) then false else true

/-! ## URL construction (`buildURL`)

The WHATWG `URL` platform object is modelled for the http(s) base URLs this
configuration accepts: scheme, host (including any port) and pathname, with
the pathname setter replacing the parsed path wholesale and ensuring a
leading slash in the serialization.  Query/fragment components and
percent-encoding are outside the configuration surface of this program. -/

/-- Does the string start with a slash (`pathname.startsWith('/')`)? -/
def startsWithSlash (s : String) : Bool :=
  match s.data with
  | [] => false
  | c :: _ => c = '/'

/-- The components of a parsed base URL. -/
structure UrlParts where
  scheme : String
  host : String
  path : String
deriving DecidableEq

/-- Split a character stream at the first `://`. -/
def splitSchemeMark : List Char → Option (List Char × List Char)
  | [] => none
  | c :: cs =>
    match cs with
    | '/' :: '/' :: rest => if c = ':' then some ([], rest) else
        match splitSchemeMark cs with
        | some (a, b) => some (c :: a, b)
        | none => none
    | _ =>
      match splitSchemeMark cs with
      | some (a, b) => some (c :: a, b)
      | none => none

/-- Split the authority from the path at the first `/`. -/
def splitHostPath : List Char → List Char × List Char
  | [] => ([], [])
  | c :: cs =>
    if c = '/' then ([], c :: cs)
    else
      match splitHostPath cs with
      | (h, p) => (c :: h, p)

/-- `new URL(s)` for the http(s) configuration URLs of this program: a
missing path component serializes as `/`. -/
def parseUrlParts (s : String) : UrlParts :=
  match splitSchemeMark s.data with
  | some (sch, rest) =>
    match splitHostPath rest with
    | (h, p) => ⟨String.mk sch, String.mk h, if p = [] then "/" else String.mk p⟩
  | none => ⟨"", "", "/"⟩

/-- The WHATWG pathname setter: the assigned string replaces the path, and
the serialized path always carries a leading slash. -/
def setPathname (u : UrlParts) (s : String) : UrlParts :=
  { u with path := if startsWithSlash s then s else "/" ++ s }

/-- `url.toString()`. -/
def urlToString (u : UrlParts) : String := u.scheme ++ "://" ++ u.host ++ u.path

/-- `buildURL` (src/index.ts): prepend a slash when missing, then assign the
result to the base URL's pathname; returns the URL parts before
serialization. -/
def buildURLParts (coreUrl pathname : String) : UrlParts :=
  setPathname (parseUrlParts coreUrl)
    (if startsWithSlash pathname then pathname else "/" ++ pathname)

/-- `buildURL` (src/index.ts): the serialized URL string. -/
def buildURL (coreUrl pathname : String) : String :=
  urlToString (buildURLParts coreUrl pathname)

/-! ## The request pipeline (`coreRequest`) -/

/-- HTTP methods used by the pipeline. -/
inductive Method where
  | GET
  | POST
  | PATCH
deriving DecidableEq

/-- One outbound HTTP call as issued by `fetch`: URL, method and the
serialized request body (`none` models a `null` body). -/
structure HttpCall where
  url : String
  method : Method
  body : Option String
deriving DecidableEq

/-- The observable outcome of the single `fetch` round trip: either a
response (status, status text, body text) or a rejection of the transport
layer (network failure, or the timeout controller aborting the request).
A rejection of `res.text()` is folded into `transportError` as it takes the
same catch path. -/
inductive FetchOutcome where
  | response (status : Nat) (statusText : String) (bodyText : String)
  | transportError (message : String)

/-- Classified failure of a pipeline call. -/
inductive PipeError where
  /-- Input failed the tool's zod shape validation. -/
  | validation
  /-- Non-2xx response: carries the status and the thrown error's message. -/
  | core (status : Nat) (message : String)
  /-- `JSON.parse` threw on a non-empty response body. -/
  | serialization (bodyText : String)
  /-- The transport layer rejected (network failure or timeout abort). -/
  | transport (message : String)
  /-- Dispatch target is not registered. -/
  | unknownTool (name : String)
deriving DecidableEq

/-- One logger invocation (level and message). -/
structure LogEntry where
  level : LogLevel
  message : String

/-- Everything observable about one pipeline invocation: its result, the
logger invocations it made (in order), and the HTTP calls it issued. -/
structure CallResult where
  result : Except PipeError (Option Js)
  logs : List LogEntry
  calls : List HttpCall

/-- `res.ok`: status in the range 200–299. -/
def okStatus (status : Nat) : Bool := 200 ≤ status && status ≤ 299

/-- Last-occurrence field lookup on an object (JavaScript property access
on an object built from duplicate-keyed JSON keeps the last value). -/
def getField : JsFields → String → Option Js
  | .nil, _ => none
  | .cons k v tl, key =>
    match getField tl key with
    | some w => some w
    | none => if k = key then some v else none

mutual
/-- JavaScript `String(x)` conversion, used by `String((data as any).message)`. -/
def jsToDisplay : Js → String
  | .null => "null"
  | .bool true => "true"
  | .bool false => "false"
  | .num n => String.mk (printInt n)
  | .str s => s
  | .arr xs => joinDisplay xs
  | .obj _ => "[object Object]"

/-- `Array.prototype.toString`: elements joined with commas, `null` shown
as the empty string. -/
def joinDisplay : JsList → String
  | .nil => ""
  | .cons v tl =>
    (match v with
      | .null => ""
      | w => jsToDisplay w)
      ++ (match tl with
        | .nil => ""
        | .cons _ _ => "," ++ joinDisplay tl)
end

/-- The error-message extraction of the non-2xx branch: the parsed body's
`message` property when the body is a non-null object carrying one,
otherwise `res.statusText`. -/
def extractErrorMessage (data : Option Js) (statusText : String) : String :=
  match data with
  | some (.obj fs) =>
    match getField fs "message" with
    | some v => jsToDisplay v
    | none => statusText
  | _ => statusText

/-- `coreRequest` (src/index.ts): one `fetch` with the built URL and the
JSON-serialized body, then body text parsing, then response classification,
with the `failureLogged` flag ensuring the catch handler logs only failures
the classification branch has not already logged. -/
def coreRequest (coreUrl pathname : String) (method : Method) (body : Option Js)
    (outcome : FetchOutcome) : CallResult :=
  let debugEntry : LogEntry := ⟨.debug, "Calling OpsOrch Core"⟩
  let theCall : HttpCall := ⟨buildURL coreUrl pathname, method, (body.map stringifyJs)⟩
  match outcome with
  | .transportError msg =>
    { result := .error (.transport msg)
      logs := [debugEntry, ⟨.error, "OpsOrch Core request encountered an error"⟩]
      calls := [theCall] }
  | .response status statusText bodyText =>
    let parsed : Option (Option Js) :=
      if bodyText = "" then some none else (parseJson bodyText).map some
    match parsed with
    | none =>
      { result := .error (.serialization bodyText)
        logs := [debugEntry, ⟨.error, "OpsOrch Core request encountered an error"⟩]
        calls := [theCall] }
    | some data =>
      if okStatus status then
        { result := .ok data
          logs := [debugEntry, ⟨.info, "OpsOrch Core call succeeded"⟩,
            ⟨.debug, "OpsOrch Core response payload"⟩]
          calls := [theCall] }
      else
        let message := extractErrorMessage data statusText
        { result := .error (.core status ("OpsOrch Core " ++ natToString status ++ ": " ++ message))
          logs := [debugEntry, ⟨.error, "OpsOrch Core call failed"⟩]
          calls := [theCall] }

/-- Is the pipeline result a failure? -/
def resultIsError : Except PipeError (Option Js) → Bool
  | .error _ => true
  | .ok _ => false

/-- Is the entry an error-level entry? -/
def isErrorEntry (e : LogEntry) : Bool :=
  match e.level with
  | .error => true
  | _ => false

/-- Number of error-level entries that the logger actually prints under the
configured level. -/
def emittedErrorCount (currentLevel : String) (logs : List LogEntry) : Nat :=
  logs.countP (fun e => isErrorEntry e && logEmits currentLevel e.level)

/-! ## Response envelope builder (`asContent`) -/

/-- One `content` entry of the MCP result envelope. -/
structure ContentItem where
  type : String
  text : String
deriving DecidableEq

/-- The envelope returned to the agent runtime. -/
structure ToolContent where
  content : List ContentItem
  structuredContent : Js

/-- `asContent` (src/index.ts): a string passes through verbatim, any other
value is pretty-printed; the structured payload is the value untouched. -/
def asContent (value : Js) : ToolContent :=
  { content := [⟨"text",
      match value with
      | .str s => s
      | v => stringifyPretty v⟩]
    structuredContent := value }

/-! ## Input validation (`incidentQuerySchema` and the query-incidents handler)

The zod object schemas of the source are embedded as executable checks over
`Js`: an object schema rejects non-objects, checks each declared field
(optional fields accept an absent key), and strips undeclared keys from its
output in declaration order. -/

/-- `z.string().optional()`. -/
def optStrField : Option Js → Bool
  | none => true
  | some (.str _) => true
  | some _ => false

/-- Is every element of the array a string (`z.array(z.string())`)? -/
def allStrings : JsList → Bool
  | .nil => true
  | .cons (.str _) tl => allStrings tl
  | .cons _ _ => false

/-- `z.array(z.string()).optional()`. -/
def optStrArrayField : Option Js → Bool
  | none => true
  | some (.arr xs) => allStrings xs
  | some _ => false

/-- `queryScopeSchema.optional()`: an object with three optional string
fields. -/
def optScopeField : Option Js → Bool
  | none => true
  | some (.obj fs) =>
    optStrField (getField fs "service") && optStrField (getField fs "team")
      && optStrField (getField fs "environment")
  | some _ => false

/-- `z.number().int().positive().optional()` (numbers are integral in this
model, so only positivity remains to check). -/
def optPosIntField : Option Js → Bool
  | none => true
  | some (.num n) => 0 < n
  | some _ => false

/-- `z.record(z.any()).optional()`: any non-array object. -/
def optRecordField : Option Js → Bool
  | none => true
  | some (.obj _) => true
  | some _ => false

/-- Keep a declared key in the stripped output when present. -/
def keepField (fs : JsFields) (k : String) (rest : JsFields) : JsFields :=
  match getField fs k with
  | some v => .cons k v rest
  | none => rest

/-- Keep a declared key, transforming its value (for nested schemas). -/
def keepFieldWith (fs : JsFields) (k : String) (f : Js → Js) (rest : JsFields) : JsFields :=
  match getField fs k with
  | some v => .cons k (f v) rest
  | none => rest

/-- `queryScopeSchema.parse`'s output: the three declared keys, stripped. -/
def stripScope (v : Js) : Js :=
  match v with
  | .obj fs =>
    .obj (keepField fs "service" (keepField fs "team" (keepField fs "environment" .nil)))
  | w => w

/-- `incidentQuerySchema.parse`: `none` models a thrown `ZodError`, `some`
is the stripped, validated payload. -/
def incidentQueryParse (input : Js) : Option Js :=
  match input with
  | .obj fs =>
    if optStrField (getField fs "query") && optStrArrayField (getField fs "statuses")
        && optStrArrayField (getField fs "severities") && optScopeField (getField fs "scope")
        && optPosIntField (getField fs "limit") && optRecordField (getField fs "metadata") then
      some (.obj (keepField fs "query" (keepField fs "statuses" (keepField fs "severities"
        (keepFieldWith fs "scope" stripScope (keepField fs "limit"
          (keepField fs "metadata" .nil)))))))
    else none
  | _ => none

/-- The `query-incidents` handler (src/index.ts): validate the supplied
input with `incidentQuerySchema.parse`, then — only on success — call the
request pipeline with the validated payload. -/
def queryIncidentsTool (coreUrl : String) (input : Js) (outcome : FetchOutcome) : CallResult :=
  match incidentQueryParse input with
  | none => { result := .error .validation, logs := [], calls := [] }
  | some payload => coreRequest coreUrl "/incidents/query" .POST (some payload) outcome

/-! ## Tool registry (`buildServer`, current revision of src/index.ts) -/

/-- One registered tool: name, HTTP method and route (id-parameterized
routes written with an `{id}` placeholder). -/
structure ToolReg where
  name : String
  method : Method
  route : String
deriving DecidableEq

/-- Every `server.registerTool` call of `buildServer`, in registration
order, with the Core route its handler requests. -/
def toolRegistry : List ToolReg :=
  [⟨"query-incidents", .POST, "/incidents/query"⟩,
   ⟨"get-incident", .GET, "/incidents/\x7bid\x7d"⟩,
   ⟨"get-incident-timeline", .GET, "/incidents/\x7bid\x7d/timeline"⟩,
   ⟨"query-alerts", .POST, "/alerts/query"⟩,
   ⟨"query-logs", .POST, "/logs/query"⟩,
   ⟨"query-metrics", .POST, "/metrics/query"⟩,
   ⟨"describe-metrics", .POST, "/metrics/describe"⟩,
   ⟨"query-tickets", .POST, "/tickets/query"⟩,
   ⟨"get-ticket", .GET, "/tickets/\x7bid\x7d"⟩,
   ⟨"query-services", .POST, "/services/query"⟩,
   ⟨"list-providers", .GET, "/providers/\x7bcapability\x7d"⟩]

/-- Registry lookup by tool name. -/
def lookupTool (name : String) : Option ToolReg :=
  toolRegistry.find? (fun t => t.name = name)

/-- Dispatch resolution: a call for an unregistered name fails with an
unknown-tool error before anything else happens. -/
def dispatchResolve (name : String) : Except PipeError ToolReg :=
  match lookupTool name with
  | none => .error (.unknownTool name)
  | some t => .ok t

/-! ## Round-trip facts: decimal digits -/

theorem digitVal_digitChar : ∀ d, d < 10 → digitVal (digitChar d) = some d := by decide

theorem printNatAux_all_digits (fuel : Nat) :
    ∀ n, n < fuel → ∀ c ∈ printNatAux fuel n, isDigitCh c = true := by
  induction fuel with
  | zero => intro n hn; omega
  | succ fuel ih =>
    intro n _ c hc
    by_cases h : n < 10
    · simp only [printNatAux, if_pos h, List.mem_singleton] at hc
      subst hc
      simp [isDigitCh, digitVal_digitChar n h]
    · simp only [printNatAux, if_neg h, List.mem_append, List.mem_singleton] at hc
      rcases hc with hc | hc
      · have hdiv : n / 10 < fuel := by
          have := Nat.div_lt_self (by omega : 0 < n) (by omega : 1 < 10)
          omega
        exact ih (n / 10) hdiv c hc
      · subst hc
        simp [isDigitCh, digitVal_digitChar (n % 10) (Nat.mod_lt _ (by omega))]

theorem printNatAux_ne_nil (fuel n : Nat) (h : n < fuel) : printNatAux fuel n ≠ [] := by
  cases fuel with
  | zero => omega
  | succ fuel =>
    by_cases h10 : n < 10
    · simp [printNatAux, h10]
    · simp only [printNatAux, if_neg h10]
      intro hc
      rcases List.append_eq_nil.mp hc with ⟨_, h2⟩
      exact List.cons_ne_nil _ _ h2

theorem printNatAux_foldl (fuel : Nat) :
    ∀ n acc, n < fuel →
      (printNatAux fuel n).foldl digitStep acc
        = acc * 10 ^ (printNatAux fuel n).length + n := by
  induction fuel with
  | zero => intro n _ hn; omega
  | succ fuel ih =>
    intro n acc _
    by_cases h : n < 10
    · simp [printNatAux, if_pos h, digitStep, digitVal_digitChar n h]
    · have hdiv : n / 10 < fuel := by
        have := Nat.div_lt_self (by omega : 0 < n) (by omega : 1 < 10)
        omega
      simp only [printNatAux, if_neg h, List.foldl_append, List.length_append,
        List.length_singleton, List.foldl_cons, List.foldl_nil]
      rw [ih (n / 10) acc hdiv]
      simp only [digitStep, digitVal_digitChar (n % 10) (Nat.mod_lt _ (by omega)),
        Option.getD_some]
      have hmod := Nat.div_add_mod n 10
      have hpow : 10 ^ ((printNatAux fuel (n / 10)).length + 1)
          = 10 ^ (printNatAux fuel (n / 10)).length * 10 := by
        rw [Nat.pow_succ]
      rw [hpow]
      ring_nf
      omega

theorem head_append_of_ne_nil {α : Type} (A B : List α) (h : A ≠ []) :
    (A ++ B).head? = A.head? := by
  cases A with
  | nil => exact absurd rfl h
  | cons a t => rfl

theorem printNatAux_head_ne_zero (fuel : Nat) :
    ∀ n, n < fuel → 1 ≤ n → ∀ c, (printNatAux fuel n).head? = some c →
      digitVal c ≠ some 0 := by
  induction fuel with
  | zero => intro n hn; omega
  | succ fuel ih =>
    intro n _ hpos c hc
    by_cases h : n < 10
    · simp only [printNatAux, if_pos h, List.head?_cons, Option.some.injEq] at hc
      subst hc
      rw [digitVal_digitChar n h]
      intro hcon
      have := Option.some.injEq (α := Nat) n 0 ▸ hcon
      simp at this
      omega
    · have hdiv : n / 10 < fuel := by
        have := Nat.div_lt_self (by omega : 0 < n) (by omega : 1 < 10)
        omega
      have hne := printNatAux_ne_nil fuel (n / 10) hdiv
      simp only [printNatAux, if_neg h] at hc
      rw [head_append_of_ne_nil _ _ hne] at hc
      exact ih (n / 10) hdiv (by omega) c hc

theorem parseDigitsAux_append (ds : List Char) :
    ∀ rest acc, (∀ c ∈ ds, isDigitCh c = true) →
      numBoundary rest = true →
      parseDigitsAux (ds ++ rest) acc = (ds.foldl digitStep acc, rest) := by
  induction ds with
  | nil =>
    intro rest acc _ hb
    cases rest with
    | nil => rfl
    | cons c t =>
      simp only [numBoundary, Bool.and_eq_true, Bool.not_eq_true'] at hb
      have : digitVal c = none := by
        rcases hval : digitVal c with _ | d
        · rfl
        · exfalso
          have : isDigitCh c = true := by simp [isDigitCh, hval]
          rw [this] at hb
          simp at hb
      simp [parseDigitsAux, this]
  | cons d ds ih =>
    intro rest acc hds hb
    have hd : isDigitCh d = true := hds d (by simp)
    rcases hval : digitVal d with _ | dv
    · simp [isDigitCh, hval] at hd
    · simp only [List.cons_append, parseDigitsAux, hval, List.foldl_cons, List.append_eq]
      rw [ih rest (acc * 10 + dv) (fun c hc => hds c (by simp [hc])) hb]
      simp [digitStep, hval]

theorem parseNumberBody_print (n : Nat) (rest : List Char) (hb : numBoundary rest = true) :
    parseNumberBody (printNatChars n ++ rest) = some (n, rest) := by
  by_cases h0 : n = 0
  · subst h0
    have : printNatChars 0 = ['0'] := by rfl
    rw [this]
    cases rest with
    | nil => rfl
    | cons c2 t =>
      simp only [numBoundary, Bool.and_eq_true, Bool.not_eq_true'] at hb
      have hnone : digitVal c2 = none := by
        rcases hval : digitVal c2 with _ | d
        · rfl
        · exfalso
          have hs : isDigitCh c2 = true := by simp [isDigitCh, hval]
          rw [hb.1] at hs
          exact Bool.false_ne_true hs
      simp [parseNumberBody, hnone, show digitVal '0' = some 0 from rfl]
  · have hlt : n < n + 1 := Nat.lt_succ_self n
    have hne := printNatAux_ne_nil (n + 1) n hlt
    rcases hcons : printNatAux (n + 1) n with _ | ⟨c, ds⟩
    · exact absurd hcons hne
    · have hall := printNatAux_all_digits (n + 1) n hlt
      have hcd : isDigitCh c = true := by
        apply hall
        rw [hcons]
        simp
      rcases hval : digitVal c with _ | d
      · simp [isDigitCh, hval] at hcd
      · have hdnz : d ≠ 0 := by
          have := printNatAux_head_ne_zero (n + 1) n hlt (by omega) c (by rw [hcons]; rfl)
          rw [hval] at this
          intro hd0
          subst hd0
          exact this rfl
        have hfold := printNatAux_foldl (n + 1) n 0 hlt
        rw [hcons] at hfold
        simp only [List.foldl_cons] at hfold
        have hstep : digitStep 0 c = d := by simp [digitStep, hval]
        rw [hstep] at hfold
        simp only [Nat.zero_mul, Nat.zero_add] at hfold
        have hds : ∀ x ∈ ds, isDigitCh x = true := by
          intro x hx
          apply hall
          rw [hcons]
          simp [hx]
        unfold printNatChars
        rw [hcons]
        simp only [List.cons_append, parseNumberBody, hval]
        rw [if_neg hdnz]
        rw [parseDigitsAux_append ds rest d hds hb]
        rw [hfold]

/-! ## Round-trip facts: string escaping -/

theorem hexVal_hexDigitChar : ∀ x, x < 16 → hexVal (hexDigitChar x) = some x := by decide

theorem parseHexEscape_spec (a b c3 d : Char) (va vb vc vd : Nat) (tail : List Char)
    (ha : hexVal a = some va) (hb : hexVal b = some vb)
    (hc : hexVal c3 = some vc) (hd : hexVal d = some vd) :
    parseHexEscape (a :: b :: c3 :: d :: tail)
      = (if ((va * 16 + vb) * 16 + vc) * 16 + vd < 55296 then
          match parseStringBody tail with
          | some (s, r) => some (Char.ofNat (((va * 16 + vb) * 16 + vc) * 16 + vd) :: s, r)
          | none => none
        else none) := by
  simp only [parseHexEscape, ha, hb, hc, hd]

theorem parseStringBody_escape (cs : List Char) :
    ∀ rest, parseStringBody (escapeList cs ++ '"' :: rest) = some (cs, rest) := by
  induction cs with
  | nil => intro rest; simp [escapeList, parseStringBody]
  | cons c cs ih =>
    intro rest
    by_cases h1 : c = '"'
    · subst h1
      simp [escapeList, escapeChar, parseStringBody, parseAfterBackslash, unescapeChar, ih]
    · by_cases h2 : c = '\\'
      · subst h2
        simp [escapeList, escapeChar, parseStringBody, parseAfterBackslash, unescapeChar, ih]
      · by_cases h3 : c = '\x08'
        · subst h3
          simp [escapeList, escapeChar, parseStringBody, parseAfterBackslash, unescapeChar, ih]
        · by_cases h4 : c = '\x0c'
          · subst h4
            simp [escapeList, escapeChar, parseStringBody, parseAfterBackslash, unescapeChar, ih]
          · by_cases h5 : c = '\n'
            · subst h5
              simp [escapeList, escapeChar, parseStringBody, parseAfterBackslash, unescapeChar, ih]
            · by_cases h6 : c = '\r'
              · subst h6
                simp [escapeList, escapeChar, parseStringBody, parseAfterBackslash, unescapeChar, ih]
              · by_cases h7 : c = '\t'
                · subst h7
                  simp [escapeList, escapeChar, parseStringBody, parseAfterBackslash, unescapeChar, ih]
                · by_cases h8 : c.toNat < 32
                  · have hdiv : c.toNat / 16 < 16 := by omega
                    have hmod : c.toNat % 16 < 16 := Nat.mod_lt _ (by omega)
                    have hv : ((0 * 16 + 0) * 16 + c.toNat / 16) * 16 + c.toNat % 16
                        = c.toNat := by
                      have := Nat.div_add_mod c.toNat 16
                      omega
                    simp only [escapeList, escapeChar, uEscape, h1, h2, h3, h4, h5, h6, h7,
                      if_neg, if_false, if_pos h8, ite_false, ite_true, List.cons_append,
                      List.nil_append, List.append_assoc]
                    have e1 : parseStringBody ('\\' :: 'u' :: '0' :: '0'
                          :: hexDigitChar (c.toNat / 16) :: hexDigitChar (c.toNat % 16)
                          :: (escapeList cs ++ '"' :: rest))
                        = parseHexEscape ('0' :: '0' :: hexDigitChar (c.toNat / 16)
                          :: hexDigitChar (c.toNat % 16) :: (escapeList cs ++ '"' :: rest)) := rfl
                    rw [e1, parseHexEscape_spec '0' '0' _ _ 0 0 (c.toNat / 16) (c.toNat % 16)
                      _ rfl rfl (hexVal_hexDigitChar _ hdiv) (hexVal_hexDigitChar _ hmod)]
                    rw [hv, if_pos (by omega : c.toNat < 55296), ih rest, Char.ofNat_toNat]
                  · simp [escapeList, escapeChar, parseStringBody, h1, h2, h3, h4,
                      h5, h6, h7, h8, ih]

/-! ## Round-trip facts: JSON values -/

theorem skipWs_not_ws (c : Char) (cs : List Char) (h : isWsChar c = false) :
    skipWs (c :: cs) = c :: cs := by
  simp [skipWs, h]

theorem digit_head_facts (c : Char) (d : Nat) (h : digitVal c = some d) :
    isWsChar c = false ∧ c ≠ 'n' ∧ c ≠ 't' ∧ c ≠ 'f' ∧ c ≠ '"' ∧ c ≠ '['
      ∧ c ≠ '{' ∧ c ≠ '-' ∧ c ≠ ']' ∧ c ≠ '}' := by
  have hrange : 48 ≤ c.toNat ∧ c.toNat ≤ 57 := by
    by_contra hc
    simp [digitVal, hc] at h
  refine ⟨?_, ?_, ?_, ?_, ?_, ?_, ?_, ?_, ?_, ?_⟩
  · simp only [isWsChar, Bool.or_eq_false_iff, decide_eq_false_iff_not]
    refine ⟨⟨⟨?_, ?_⟩, ?_⟩, ?_⟩ <;>
      · intro heq; subst heq; exact absurd hrange (by decide)
  all_goals intro heq; subst heq; exact absurd hrange (by decide)

theorem valueHead_spec (c : Char) (h : valueHead c = true) :
    isWsChar c = false ∧ c ≠ ']' ∧ c ≠ '}' := by
  simp only [valueHead, Bool.and_eq_true, Bool.not_eq_true', decide_eq_false_iff_not] at h
  exact ⟨h.1.1, h.1.2, h.2⟩

/-- The first character of a printed value: it exists and is acceptable. -/
theorem printJs_head_spec (v : Js) :
    ∃ c t, printJs v = c :: t ∧ isWsChar c = false ∧ c ≠ ']' ∧ c ≠ '}' := by
  have lift : ∀ (c : Char) (t rest : List Char), valueHead c = true → rest = c :: t →
      ∃ c2 t2, rest = c2 :: t2 ∧ isWsChar c2 = false ∧ c2 ≠ ']' ∧ c2 ≠ '}' := by
    intro c t rest hgood hrest
    obtain ⟨h1, h2, h3⟩ := valueHead_spec c hgood
    exact ⟨c, t, hrest, h1, h2, h3⟩
  cases v with
  | num n =>
    by_cases hneg : n < 0
    · apply lift '-' (printNatChars n.natAbs) _ (by decide)
      simp [printJs, printInt, hneg]
    · have hne := printNatAux_ne_nil (n.toNat + 1) n.toNat (Nat.lt_succ_self _)
      rcases hcons : printNatAux (n.toNat + 1) n.toNat with _ | ⟨c, ds⟩
      · exact absurd hcons hne
      · have hcd : isDigitCh c = true := by
          apply printNatAux_all_digits (n.toNat + 1) n.toNat (Nat.lt_succ_self _)
          rw [hcons]; simp
        rcases hval : digitVal c with _ | d
        · simp [isDigitCh, hval] at hcd
        · obtain ⟨hws, _, _, _, _, _, _, _, hrb, hcb⟩ := digit_head_facts c d hval
          refine ⟨c, ds, ?_, hws, hrb, hcb⟩
          simp [printJs, printInt, hneg, printNatChars, hcons]
  | bool b =>
    cases b with
    | true => exact lift 't' _ _ (by decide) rfl
    | false => exact lift 'f' _ _ (by decide) rfl
  | null => exact lift 'n' _ _ (by decide) rfl
  | str s => exact lift '"' _ _ (by decide) rfl
  | arr xs => exact lift '[' _ _ (by decide) rfl
  | obj fs => exact lift '{' _ _ (by decide) rfl

theorem intBoundary_of_numBoundary (rest : List Char) (h : numBoundary rest = true) :
    intBoundary rest = true := by
  cases rest with
  | nil => rfl
  | cons c t =>
    simp only [numBoundary, Bool.and_eq_true] at h
    simp [intBoundary, h.2]

/-- Parsing a printed nonnegative number inside `parseVal`. -/
theorem parseVal_print_nat (m : Nat) (f : Nat) (rest : List Char)
    (hb : numBoundary rest = true) :
    parseVal (f + 1) (printNatChars m ++ rest) = some (.num (Int.ofNat m), rest) := by
  have hne := printNatAux_ne_nil (m + 1) m (Nat.lt_succ_self _)
  rcases hcons : printNatAux (m + 1) m with _ | ⟨c, ds⟩
  · exact absurd hcons hne
  · have hcd : isDigitCh c = true := by
      apply printNatAux_all_digits (m + 1) m (Nat.lt_succ_self _)
      rw [hcons]; simp
    rcases hval : digitVal c with _ | d
    · simp [isDigitCh, hval] at hcd
    · obtain ⟨hws, hn, ht, hf, hq, hbk, hbc, hm, _, _⟩ := digit_head_facts c d hval
      have hlist : printNatChars m ++ rest = c :: (ds ++ rest) := by
        simp [printNatChars, hcons]
      rw [hlist]
      simp only [parseVal, skipWs_not_ws c (ds ++ rest) hws]
      rw [if_neg hn, if_neg ht, if_neg hf, if_neg hq, if_neg hbk, if_neg hbc, if_neg hm]
      rw [show c :: (ds ++ rest) = printNatChars m ++ rest from hlist.symm]
      rw [parseNumberBody_print m rest hb]
      simp [intBoundary_of_numBoundary rest hb]

theorem fuelNeed_pos (v : Js) : 1 ≤ fuelNeed v := by
  cases v <;> simp [fuelNeed]

/-- Stepping lemma for `parseItems` once the element and the following
separator are known. -/
theorem parseItems_step (f : Nat) (cs : List Char) (v : Js) (c : Char) (r2 : List Char)
    (hpv : parseVal f cs = some (v, c :: r2)) (hws : isWsChar c = false) :
    parseItems (f + 1) cs
      = (if c = ',' then
          match parseItems f r2 with
          | some (vs, r3) => some (.cons v vs, r3)
          | none => none
        else if c = ']' then some (.cons v .nil, r2)
        else none) := by
  simp only [parseItems, hpv, skipWs_not_ws c r2 hws]

mutual
theorem parseVal_print (v : Js) : ∀ (fuel : Nat) (rest : List Char),
    fuelNeed v ≤ fuel → numBoundary rest = true →
    parseVal fuel (printJs v ++ rest) = some (v, rest) := by
  intro fuel rest hfuel hb
  cases fuel with
  | zero => exact absurd (Nat.le_trans (fuelNeed_pos v) hfuel) (by omega)
  | succ f =>
    cases hv : v with
    | null => rfl
    | bool b => cases b <;> rfl
    | num n =>
      by_cases hneg : n < 0
      · have hpr : printJs (.num n) ++ rest = '-' :: (printNatChars n.natAbs ++ rest) := by
          simp [printJs, printInt, hneg]
        rw [hpr]
        have e : parseVal (f + 1) ('-' :: (printNatChars n.natAbs ++ rest))
            = (match parseNumberBody (printNatChars n.natAbs ++ rest) with
              | some (m, r) =>
                if intBoundary r then some (.num (-(Int.ofNat m)), r) else none
              | none => none) := rfl
        rw [e, parseNumberBody_print n.natAbs rest hb]
        simp only [intBoundary_of_numBoundary rest hb, if_true, ite_true]
        have hval : -(Int.ofNat n.natAbs) = n := by
          simp only [Int.ofNat_eq_natCast]
          omega
        rw [hval]
      · have := parseVal_print_nat n.toNat f rest hb
        rw [show Int.ofNat n.toNat = n by
          simp only [Int.ofNat_eq_natCast]
          omega] at this
        rw [show printJs (.num n) = printNatChars n.toNat by simp [printJs, printInt, hneg]]
        exact this
    | str s =>
      have hpr : printJs (.str s) ++ rest = '"' :: (escapeList s.data ++ '"' :: rest) := by
        simp [printJs, printStr]
      rw [hpr]
      have e : parseVal (f + 1) ('"' :: (escapeList s.data ++ '"' :: rest))
          = (match parseStringBody (escapeList s.data ++ '"' :: rest) with
            | some (s2, r) => some (.str (String.mk s2), r)
            | none => none) := rfl
      rw [e, parseStringBody_escape s.data rest]
    | arr xs =>
      cases hxs : xs with
      | nil => rfl
      | cons w tl =>
        obtain ⟨c, t, hct, hws, hrb, _⟩ := printJs_head_spec w
        have hfuel2 : listFuel (.cons w tl) ≤ f := by
          rw [hv, hxs] at hfuel
          simp only [fuelNeed] at hfuel
          omega
        have hpr : printJs (.arr (.cons w tl)) ++ rest
            = '[' :: (printList (.cons w tl) ++ ']' :: rest) := by
          simp [printJs]
        rw [hpr]
        obtain ⟨t2, ht2⟩ : ∃ t2, printList (.cons w tl) ++ ']' :: rest = c :: t2 := by
          simp only [printList, hct, List.cons_append, List.append_assoc]
          exact ⟨_, rfl⟩
        have e : parseVal (f + 1) ('[' :: (printList (.cons w tl) ++ ']' :: rest))
            = (match skipWs (printList (.cons w tl) ++ ']' :: rest) with
              | [] => none
              | c2 :: cs2 =>
                if c2 = ']' then some (.arr .nil, cs2)
                else
                  match parseItems f (c2 :: cs2) with
                  | some (vs, r) => some (.arr vs, r)
                  | none => none) := rfl
        have e2 : parseVal (f + 1) ('[' :: (printList (.cons w tl) ++ ']' :: rest))
            = (match parseItems f (c :: t2) with
              | some (vs, r) => some (.arr vs, r)
              | none => none) := by
          rw [e, show skipWs (printList (.cons w tl) ++ ']' :: rest) = c :: t2 from by
            rw [ht2]; exact skipWs_not_ws c t2 hws]
          simp [if_neg hrb]
        rw [e2, ← ht2, parseItems_print w tl f rest hfuel2]
    | obj fs =>
      cases hfs : fs with
      | nil => rfl
      | cons k w tl =>
        have hfuel2 : fieldsFuel (.cons k w tl) ≤ f := by
          rw [hv, hfs] at hfuel
          simp only [fuelNeed] at hfuel
          omega
        have hpr : printJs (.obj (.cons k w tl)) ++ rest
            = '{' :: (printFieldList (.cons k w tl) ++ '}' :: rest) := by
          simp [printJs]
        rw [hpr]
        obtain ⟨t2, ht2⟩ : ∃ t2, printFieldList (.cons k w tl) ++ '}' :: rest = '"' :: t2 := by
          simp only [printFieldList, printStr, List.cons_append, List.append_assoc]
          exact ⟨_, rfl⟩
        have e : parseVal (f + 1) ('{' :: (printFieldList (.cons k w tl) ++ '}' :: rest))
            = (match skipWs (printFieldList (.cons k w tl) ++ '}' :: rest) with
              | [] => none
              | c2 :: cs2 =>
                if c2 = '}' then some (.obj .nil, cs2)
                else
                  match parseMembers f (c2 :: cs2) with
                  | some (fs2, r) => some (.obj fs2, r)
                  | none => none) := rfl
        have e2 : parseVal (f + 1) ('{' :: (printFieldList (.cons k w tl) ++ '}' :: rest))
            = (match parseMembers f ('"' :: t2) with
              | some (fs2, r) => some (.obj fs2, r)
              | none => none) := by
          rw [e, show skipWs (printFieldList (.cons k w tl) ++ '}' :: rest) = '"' :: t2 from by
            rw [ht2]; exact skipWs_not_ws '"' t2 (by decide)]
          simp
        rw [e2, ← ht2, parseMembers_print k w tl f rest hfuel2]
termination_by sizeOf v
decreasing_by all_goals (subst_vars; simp_wf; try omega)

theorem parseItems_print (w : Js) (tl : JsList) : ∀ (f : Nat) (rest : List Char),
    listFuel (.cons w tl) ≤ f →
    parseItems f (printList (.cons w tl) ++ ']' :: rest) = some (.cons w tl, rest) := by
  intro f rest hfuel
  cases f with
  | zero => exact absurd hfuel (by simp [listFuel])
  | succ f2 =>
    have hw : fuelNeed w ≤ f2 := by
      simp only [listFuel] at hfuel
      omega
    cases htl : tl with
    | nil =>
      have hpr : printList (.cons w .nil) ++ ']' :: rest = printJs w ++ ']' :: rest := by
        simp [printList]
      rw [hpr]
      rw [parseItems_step f2 (printJs w ++ ']' :: rest) w ']' rest
        (parseVal_print w f2 (']' :: rest) hw rfl) (by decide)]
      rfl
    | cons w2 ws =>
      have hws2 : listFuel (.cons w2 ws) ≤ f2 := by
        rw [htl] at hfuel
        simp only [listFuel] at hfuel ⊢
        omega
      have hpr : printList (.cons w (.cons w2 ws)) ++ ']' :: rest
          = printJs w ++ ',' :: (printList (.cons w2 ws) ++ ']' :: rest) := by
        simp [printList]
      rw [hpr]
      rw [parseItems_step f2 _ w ',' (printList (.cons w2 ws) ++ ']' :: rest)
        (parseVal_print w f2 (',' :: (printList (.cons w2 ws) ++ ']' :: rest)) hw rfl)
        (by decide)]
      rw [if_pos rfl, parseItems_print w2 ws f2 rest hws2]
termination_by 1 + sizeOf w + sizeOf tl
decreasing_by all_goals (subst_vars; simp_wf; try omega)

theorem parseMembers_print (k : String) (w : Js) (tl : JsFields) :
    ∀ (f : Nat) (rest : List Char),
    fieldsFuel (.cons k w tl) ≤ f →
    parseMembers f (printFieldList (.cons k w tl) ++ '}' :: rest)
      = some (.cons k w tl, rest) := by
  intro f rest hfuel
  cases f with
  | zero => exact absurd hfuel (by simp [fieldsFuel])
  | succ f2 =>
    have hw : fuelNeed w ≤ f2 := by
      simp only [fieldsFuel] at hfuel
      omega
    cases htl : tl with
    | nil =>
      have hpr : printFieldList (.cons k w .nil) ++ '}' :: rest
          = '"' :: (escapeList k.data ++ '"' :: (':' :: (printJs w ++ '}' :: rest))) := by
        simp [printFieldList, printStr]
      rw [hpr]
      have e : parseMembers (f2 + 1)
            ('"' :: (escapeList k.data ++ '"' :: (':' :: (printJs w ++ '}' :: rest))))
          = (match parseStringBody (escapeList k.data ++ '"'
                :: (':' :: (printJs w ++ '}' :: rest))) with
            | none => none
            | some (kd, r) =>
              match skipWs r with
              | [] => none
              | c2 :: r2 =>
                if c2 = ':' then
                  match parseVal f2 r2 with
                  | none => none
                  | some (v, r3) =>
                    match skipWs r3 with
                    | [] => none
                    | c3 :: r4 =>
                      if c3 = ',' then
                        match parseMembers f2 r4 with
                        | some (fs2, r5) => some (.cons (String.mk kd) v fs2, r5)
                        | none => none
                      else if c3 = '}' then some (.cons (String.mk kd) v .nil, r4)
                      else none
                else none) := rfl
      rw [e, parseStringBody_escape k.data (':' :: (printJs w ++ '}' :: rest))]
      simp only [skipWs_not_ws ':' _ (by decide), reduceIte]
      rw [parseVal_print w f2 ('}' :: rest) hw rfl]
      rfl
    | cons k2 w2 ws =>
      have hws2 : fieldsFuel (.cons k2 w2 ws) ≤ f2 := by
        rw [htl] at hfuel
        simp only [fieldsFuel] at hfuel ⊢
        omega
      have hpr : printFieldList (.cons k w (.cons k2 w2 ws)) ++ '}' :: rest
          = '"' :: (escapeList k.data ++ '"' :: (':' :: (printJs w
              ++ ',' :: (printFieldList (.cons k2 w2 ws) ++ '}' :: rest)))) := by
        simp [printFieldList, printStr]
      rw [hpr]
      have e : parseMembers (f2 + 1)
            ('"' :: (escapeList k.data ++ '"' :: (':' :: (printJs w
              ++ ',' :: (printFieldList (.cons k2 w2 ws) ++ '}' :: rest)))))
          = (match parseStringBody (escapeList k.data ++ '"' :: (':' :: (printJs w
                ++ ',' :: (printFieldList (.cons k2 w2 ws) ++ '}' :: rest)))) with
            | none => none
            | some (kd, r) =>
              match skipWs r with
              | [] => none
              | c2 :: r2 =>
                if c2 = ':' then
                  match parseVal f2 r2 with
                  | none => none
                  | some (v, r3) =>
                    match skipWs r3 with
                    | [] => none
                    | c3 :: r4 =>
                      if c3 = ',' then
                        match parseMembers f2 r4 with
                        | some (fs2, r5) => some (.cons (String.mk kd) v fs2, r5)
                        | none => none
                      else if c3 = '}' then some (.cons (String.mk kd) v .nil, r4)
                      else none
                else none) := rfl
      rw [e, parseStringBody_escape k.data
        (':' :: (printJs w ++ ',' :: (printFieldList (.cons k2 w2 ws) ++ '}' :: rest)))]
      simp only [skipWs_not_ws ':' _ (by decide), reduceIte]
      rw [parseVal_print w f2
        (',' :: (printFieldList (.cons k2 w2 ws) ++ '}' :: rest)) hw rfl]
      simp only [skipWs_not_ws ',' _ (by decide), reduceIte]
      rw [parseMembers_print k2 w2 ws f2 rest hws2]
termination_by 1 + sizeOf w + sizeOf tl
decreasing_by all_goals (subst_vars; simp_wf; try omega)
end

mutual
theorem fuelNeed_le_length (v : Js) : fuelNeed v ≤ (printJs v).length := by
  cases v with
  | null => simp [fuelNeed, printJs]
  | bool b => cases b <;> simp [fuelNeed, printJs]
  | num n =>
    have : printJs (.num n) ≠ [] := by
      simp only [printJs, printInt]
      split
      · simp
      · exact printNatAux_ne_nil _ _ (Nat.lt_succ_self _)
    have := List.length_pos.mpr this
    simp only [fuelNeed]
    omega
  | str s => simp [fuelNeed, printJs, printStr]
  | arr xs =>
    have := listFuel_le_length xs
    simp only [fuelNeed, printJs, List.length_cons, List.length_append,
      List.length_singleton]
    omega
  | obj fs =>
    have := fieldsFuel_le_length fs
    simp only [fuelNeed, printJs, List.length_cons, List.length_append,
      List.length_singleton]
    omega
termination_by sizeOf v
decreasing_by all_goals (subst_vars; simp_wf; try omega)

theorem listFuel_le_length (xs : JsList) : listFuel xs ≤ (printList xs).length + 1 := by
  cases xs with
  | nil => simp [listFuel]
  | cons v tl =>
    have hv := fuelNeed_le_length v
    cases tl with
    | nil =>
      have hexp : printList (.cons v .nil) = printJs v := by
        simp [printList]
      rw [hexp]
      simp only [listFuel]
      omega
    | cons w2 ws =>
      have htl := listFuel_le_length (.cons w2 ws)
      have hexp : printList (.cons v (.cons w2 ws))
          = printJs v ++ ',' :: printList (.cons w2 ws) := rfl
      rw [hexp]
      simp only [listFuel] at htl ⊢
      simp only [List.length_append, List.length_cons]
      omega
termination_by sizeOf xs
decreasing_by all_goals (subst_vars; simp_wf; try omega)

theorem fieldsFuel_le_length (fs : JsFields) :
    fieldsFuel fs ≤ (printFieldList fs).length + 1 := by
  cases fs with
  | nil => simp [fieldsFuel]
  | cons k v tl =>
    have hv := fuelNeed_le_length v
    cases tl with
    | nil =>
      have hexp : printFieldList (.cons k v .nil) = printStr k ++ ':' :: printJs v := by
        simp [printFieldList]
      rw [hexp]
      simp only [fieldsFuel, List.length_append, List.length_cons]
      omega
    | cons k2 w2 ws =>
      have htl := fieldsFuel_le_length (.cons k2 w2 ws)
      have hexp : printFieldList (.cons k v (.cons k2 w2 ws))
          = printStr k ++ ':' :: printJs v ++ ',' :: printFieldList (.cons k2 w2 ws) := rfl
      rw [hexp]
      simp only [fieldsFuel] at htl ⊢
      simp only [List.length_append, List.length_cons]
      omega
termination_by sizeOf fs
decreasing_by all_goals (subst_vars; simp_wf; try omega)
end

/-- The printer–parser round trip: parsing a compact serialization recovers
the value exactly. -/
theorem parseJson_stringify (v : Js) : parseJson (stringifyJs v) = some v := by
  have hfuel : fuelNeed v ≤ (printJs v).length + 1 :=
    Nat.le_trans (fuelNeed_le_length v) (Nat.le_succ _)
  have h := parseVal_print v ((printJs v).length + 1) [] hfuel rfl
  rw [List.append_nil] at h
  show (match parseVal ((printJs v).length + 1) (printJs v) with
    | some (w, rest) =>
      match skipWs rest with
      | [] => some w
      | _ :: _ => none
    | none => none) = some v
  rw [h]
  rfl

/-! ## Auxiliary facts for the claims -/

theorem data_slash_append (p : String) : ("/" ++ p).data = '/' :: p.data := by
  cases p
  rfl

theorem startsWithSlash_slash_append (p : String) : startsWithSlash ("/" ++ p) = true := by
  simp [startsWithSlash, data_slash_append]

theorem startsWithSlash_setPathname (u : UrlParts) (s : String) :
    startsWithSlash (setPathname u s).path = true := by
  unfold setPathname
  by_cases h : startsWithSlash s = true
  · simp [h]
  · simp [h, startsWithSlash_slash_append]

theorem logEmits_error (currentLevel : String) : logEmits currentLevel .error = true := by
  unfold logEmits rankLt levelRank
  by_cases h1 : currentLevel = "debug" <;> by_cases h2 : currentLevel = "info" <;>
    by_cases h3 : currentLevel = "warn" <;> by_cases h4 : currentLevel = "error" <;>
    simp [h1, h2, h3, h4, levelOrder]

/-! ## Claims -/

/-- C1 (counterexample): for the backend response of status 404 with body
`{"message":"Team not found"}`, the pipeline fails with message exactly
`OpsOrch Core 404: Team not found` — not `Core 404: Team not found` as the
claim states, so the claimed exact shape `Core <statusCode>: <message>` is
wrong on this input. -/
theorem C1_counterexample :
    (coreRequest "http://localhost:8080" "/teams/x" .GET none
      (.response 404 "Not Found" "\x7b\"message\":\"Team not found\"\x7d")).result
      = .error (.core 404 "OpsOrch Core 404: Team not found")
    ∧ "OpsOrch Core 404: Team not found" ≠ "Core 404: Team not found" := by
  refine ⟨by rfl, by decide⟩

/-- C1 (amended): for every response of non-2xx status whose body is empty
or parses as JSON, the pipeline fails with an error whose message is
exactly `OpsOrch Core <statusCode>: <message>`, where `<message>` is the
parsed body's `message` field when the body is a structured object
containing one and the transport's status text otherwise. -/
theorem C1_core_error_message (coreUrl pathname : String) (method : Method)
    (body : Option Js) (status : Nat) (statusText bodyText : String)
    (hstatus : okStatus status = false)
    (hbody : bodyText = "" ∨ (parseJson bodyText).isSome = true) :
    (coreRequest coreUrl pathname method body (.response status statusText bodyText)).result
      = .error (.core status ("OpsOrch Core " ++ natToString status ++ ": "
          ++ extractErrorMessage (if bodyText = "" then none else parseJson bodyText)
              statusText)) := by
  by_cases hbt : bodyText = ""
  · subst hbt
    simp [coreRequest, hstatus]
  · rcases hbody with h | h
    · exact absurd h hbt
    · rcases hj : parseJson bodyText with _ | v
      · rw [hj] at h
        simp at h
      · simp [coreRequest, hbt, hj, hstatus]

/-- C1 (witness): the amended message shape at the concrete 404 response,
matching the repository's own test expectation. -/
theorem C1_core_error_message_witness :
    okStatus 404 = false
    ∧ (coreRequest "http://localhost:8080" "/teams/x" .GET none
        (.response 404 "Not Found" "\x7b\"message\":\"Team not found\"\x7d")).result
      = .error (.core 404 "OpsOrch Core 404: Team not found") := by
  refine ⟨by decide, ?_⟩
  have h := C1_core_error_message "http://localhost:8080" "/teams/x" .GET none 404
    "Not Found" "\x7b\"message\":\"Team not found\"\x7d" (by decide) (Or.inr (by rfl))
  rw [h]
  rfl

/-- C2 (counterexample): a response with an empty body text but status 500
does not resolve successfully — it fails with a classified Core error — so
the claim's unconditional "every empty-body response resolves successfully"
is wrong. -/
theorem C2_counterexample :
    (coreRequest "http://localhost:8080" "/health" .GET none
      (.response 500 "Internal Server Error" "")).result
      = .error (.core 500 "OpsOrch Core 500: Internal Server Error") := by
  rfl

/-- C2 (amended): a 2xx response with empty body text resolves successfully
with payload `undefined`; a response whose body text is non-empty but not
valid JSON rejects with a propagated serialization error — for every
status — and never resolves successfully. -/
theorem C2_empty_and_invalid_body (coreUrl pathname : String) (method : Method)
    (body : Option Js) (status : Nat) (statusText : String) :
    (okStatus status = true →
      (coreRequest coreUrl pathname method body (.response status statusText "")).result
        = .ok none)
    ∧ (∀ bodyText, bodyText ≠ "" → parseJson bodyText = none →
        (coreRequest coreUrl pathname method body
          (.response status statusText bodyText)).result
          = .error (.serialization bodyText)) := by
  constructor
  · intro hok
    simp [coreRequest, hok]
  · intro bodyText hne hj
    simp [coreRequest, hne, hj]

/-- C2 (witness): a 200 response with empty body resolves to the undefined
payload, and a 200 response with body `not json` rejects with a
serialization error. -/
theorem C2_empty_and_invalid_body_witness :
    (coreRequest "http://localhost:8080" "/health" .GET none
      (.response 200 "OK" "")).result = .ok none
    ∧ (coreRequest "http://localhost:8080" "/health" .GET none
        (.response 200 "OK" "not json")).result = .error (.serialization "not json") :=
  ⟨(C2_empty_and_invalid_body "http://localhost:8080" "/health" .GET none 200 "OK").1
      (by decide),
   (C2_empty_and_invalid_body "http://localhost:8080" "/health" .GET none 200 "OK").2
      "not json" (by decide) (by rfl)⟩

/-- C3: every failing pipeline invocation — transport rejection, body-parse
failure, or non-2xx classification — emits exactly one error-level log
entry under every configured logger level: never zero and never
duplicated by both the classification branch and the catch handler. -/
theorem C3_failure_logged_once (coreUrl pathname : String) (method : Method)
    (body : Option Js) (outcome : FetchOutcome) (currentLevel : String)
    (hfail : resultIsError (coreRequest coreUrl pathname method body outcome).result
      = true) :
    emittedErrorCount currentLevel
      (coreRequest coreUrl pathname method body outcome).logs = 1 := by
  have hee := logEmits_error currentLevel
  cases outcome with
  | transportError msg =>
    simp [coreRequest, emittedErrorCount, List.countP_cons, List.countP_nil,
      isErrorEntry, hee]
  | response status statusText bodyText =>
    by_cases hbt : bodyText = ""
    · subst hbt
      by_cases hok : okStatus status
      · simp [coreRequest, hok, resultIsError] at hfail
      · simp [coreRequest, hok, emittedErrorCount, List.countP_cons, List.countP_nil,
          isErrorEntry, hee]
    · rcases hj : parseJson bodyText with _ | v
      · simp [coreRequest, hbt, hj, emittedErrorCount, List.countP_cons, List.countP_nil,
          isErrorEntry, hee]
      · by_cases hok : okStatus status
        · simp [coreRequest, hbt, hj, hok, resultIsError] at hfail
        · simp [coreRequest, hbt, hj, hok, emittedErrorCount, List.countP_cons,
            List.countP_nil, isErrorEntry, hee]

/-- C3 (witness): a transport failure is a failing invocation and emits
exactly one error-level entry under the default `info` level. -/
theorem C3_failure_logged_once_witness :
    resultIsError (coreRequest "http://localhost:8080" "/health" .GET none
      (.transportError "fetch failed")).result = true
    ∧ emittedErrorCount "info" (coreRequest "http://localhost:8080" "/health" .GET none
        (.transportError "fetch failed")).logs = 1 :=
  ⟨by rfl,
   C3_failure_logged_once "http://localhost:8080" "/health" .GET none
     (.transportError "fetch failed") "info" (by rfl)⟩

/-- C4: an input failing the query-incidents input-shape validation makes
the handler fail with a validation error before anything else: no HTTP
call is issued and no log entry — in particular no Core-call failure — is
produced. -/
theorem C4_validation_before_network (coreUrl : String) (input : Js)
    (outcome : FetchOutcome) (hinvalid : incidentQueryParse input = none) :
    queryIncidentsTool coreUrl input outcome
      = ⟨.error .validation, [], []⟩ := by
  simp [queryIncidentsTool, hinvalid]

/-- C4 (witness): the input `{limit: 0}` fails validation (a limit must be
a positive integer) and produces no network call and no log entry. -/
theorem C4_validation_before_network_witness :
    incidentQueryParse (.obj (.cons "limit" (.num 0) .nil)) = none
    ∧ queryIncidentsTool "http://localhost:8080" (.obj (.cons "limit" (.num 0) .nil))
        (.response 200 "OK" "[]")
      = ⟨.error .validation, [], []⟩ :=
  ⟨by rfl,
   C4_validation_before_network "http://localhost:8080"
     (.obj (.cons "limit" (.num 0) .nil)) (.response 200 "OK" "[]") (by rfl)⟩

/-- C5 (counterexample): the tool registry of `buildServer` does not bind
`query-teams`: dispatching it resolves to an unknown-tool error rather
than reaching any handler, contradicting the claim that the teams and
deployments tools are bound. -/
theorem C5_counterexample :
    dispatchResolve "query-teams" = .error (.unknownTool "query-teams") := by
  rfl

/-- C5 (amended): the registry binds exactly the read-only tools of the
current `buildServer` — query-incidents, get-incident,
get-incident-timeline, query-alerts, query-logs, query-metrics,
describe-metrics, query-tickets, get-ticket, query-services,
list-providers, with the stated methods and routes — and binds none of the
teams or deployments tools, so dispatching `query-teams` fails with an
unknown-tool error; `wrap([])` still produces `structuredPayload = []`. -/
theorem C5_registry_bindings :
    toolRegistry.map (fun t => (t.name, t.method, t.route))
      = [("query-incidents", Method.POST, "/incidents/query"),
         ("get-incident", Method.GET, "/incidents/\x7bid\x7d"),
         ("get-incident-timeline", Method.GET, "/incidents/\x7bid\x7d/timeline"),
         ("query-alerts", Method.POST, "/alerts/query"),
         ("query-logs", Method.POST, "/logs/query"),
         ("query-metrics", Method.POST, "/metrics/query"),
         ("describe-metrics", Method.POST, "/metrics/describe"),
         ("query-tickets", Method.POST, "/tickets/query"),
         ("get-ticket", Method.GET, "/tickets/\x7bid\x7d"),
         ("query-services", Method.POST, "/services/query"),
         ("list-providers", Method.GET, "/providers/\x7bcapability\x7d")]
    ∧ lookupTool "query-teams" = none
    ∧ lookupTool "get-team" = none
    ∧ lookupTool "get-team-members" = none
    ∧ lookupTool "query-deployments" = none
    ∧ lookupTool "get-deployment" = none
    ∧ (asContent (.arr .nil)).structuredContent = .arr .nil := by
  refine ⟨by rfl, by rfl, by rfl, by rfl, by rfl, by rfl, by rfl⟩

/-- C6: for every request body, a POST through the pipeline issues exactly
one outbound HTTP call — to the built URL, carrying the JSON-serialized
body — and parsing that serialized body back recovers the body exactly
(no field dropped or reordered). -/
theorem C6_post_roundtrip (coreUrl pathname : String) (b : Js) (outcome : FetchOutcome) :
    (coreRequest coreUrl pathname .POST (some b) outcome).calls
      = [⟨buildURL coreUrl pathname, .POST, some (stringifyJs b)⟩]
    ∧ parseJson (stringifyJs b) = some b := by
  constructor
  · cases outcome with
    | transportError msg => rfl
    | response status statusText bodyText =>
      by_cases hbt : bodyText = ""
      · subst hbt
        by_cases hok : okStatus status
        · simp [coreRequest, hok]
        · simp [coreRequest, hok]
      · rcases hj : parseJson bodyText with _ | v
        · simp [coreRequest, hbt, hj]
        · by_cases hok : okStatus status
          · simp [coreRequest, hbt, hj, hok]
          · simp [coreRequest, hbt, hj, hok]
  · exact parseJson_stringify b

/-- C7: for every non-empty path without a leading slash, building the URL
from the path and from the slash-prefixed path coincide, and the path
component of every built URL begins with a slash. -/
theorem C7_buildURL_normalization (coreUrl p : String) :
    (p ≠ "" → startsWithSlash p = false →
      buildURL coreUrl p = buildURL coreUrl ("/" ++ p))
    ∧ startsWithSlash (buildURLParts coreUrl p).path = true := by
  constructor
  · intro _ hsl
    unfold buildURL buildURLParts
    rw [if_neg (by simp [hsl]), if_pos (startsWithSlash_slash_append p)]
  · exact startsWithSlash_setPathname _ _

/-- C7 (witness): `buildURL('health')` equals `buildURL('/health')` against
the default base URL, and its path component begins with a slash. -/
theorem C7_buildURL_normalization_witness :
    buildURL "http://localhost:8080" "health" = buildURL "http://localhost:8080" "/health"
    ∧ startsWithSlash (buildURLParts "http://localhost:8080" "health").path = true :=
  ⟨(C7_buildURL_normalization "http://localhost:8080" "health").1 (by decide) (by rfl),
   (C7_buildURL_normalization "http://localhost:8080" "health").2⟩

/-- C8: the envelope builder is total by construction and returns the
original value untouched as the structured payload; the text
representation is the string itself verbatim for string values and the
two-space-indented JSON serialization otherwise. -/
theorem C8_asContent_envelope (value : Js) :
    (asContent value).structuredContent = value
    ∧ (∀ s, value = .str s → (asContent value).content = [⟨"text", s⟩])
    ∧ ((∀ s, value ≠ .str s) →
        (asContent value).content = [⟨"text", stringifyPretty value⟩]) := by
  refine ⟨rfl, ?_, ?_⟩
  · intro s hs
    subst hs
    rfl
  · intro hns
    cases value with
    | str s => exact absurd rfl (hns s)
    | null => rfl
    | bool b => rfl
    | num n => rfl
    | arr xs => rfl
    | obj fs => rfl

/-- C8 (witness): string identity passthrough on `'ok'` and pretty-printed
serialization of `{a: 1}` containing the indented member. -/
theorem C8_asContent_envelope_witness :
    (asContent (.str "ok")).structuredContent = .str "ok"
    ∧ (asContent (.str "ok")).content = [⟨"text", "ok"⟩]
    ∧ (asContent (.obj (.cons "a" (.num 1) .nil))).content
      = [⟨"text", "\x7b\n  \"a\": 1\n\x7d"⟩] := by
  refine ⟨(C8_asContent_envelope (.str "ok")).1,
    (C8_asContent_envelope (.str "ok")).2.1 "ok" rfl, ?_⟩
  have h := (C8_asContent_envelope (.obj (.cons "a" (.num 1) .nil))).2.2
    (fun s hs => Js.noConfusion hs)
  rw [h]
  rfl

/-- C9: the pathname assignment replaces the base URL's path wholesale —
for every configured base URL whose own path is not `/`, the built URL
uses the request path (with a leading slash ensured) as the full path, and
the base URL's path never survives as a prefix. -/
theorem C9_base_path_replaced (coreUrl p : String)
    (_hbase : (parseUrlParts coreUrl).path ≠ "/") :
    (buildURLParts coreUrl p).path = (if startsWithSlash p then p else "/" ++ p)
    ∧ buildURL coreUrl p
      = urlToString ⟨(parseUrlParts coreUrl).scheme, (parseUrlParts coreUrl).host,
          if startsWithSlash p then p else "/" ++ p⟩ := by
  by_cases hs : startsWithSlash p = true
  · constructor
    · simp [buildURLParts, setPathname, hs]
    · simp [buildURL, buildURLParts, setPathname, urlToString, hs]
  · constructor
    · simp [buildURLParts, setPathname, hs, startsWithSlash_slash_append]
    · simp [buildURL, buildURLParts, setPathname, urlToString, hs,
        startsWithSlash_slash_append]

/-- C9 (witness): against the base URL `http://localhost:8080/api`, whose
path component is `/api`, building `/teams` yields
`http://localhost:8080/teams` — the base path is discarded, not joined. -/
theorem C9_base_path_replaced_witness :
    (parseUrlParts "http://localhost:8080/api").path ≠ "/"
    ∧ buildURL "http://localhost:8080/api" "/teams" = "http://localhost:8080/teams" := by
  refine ⟨by decide, ?_⟩
  have h := (C9_base_path_replaced "http://localhost:8080/api" "/teams" (by decide)).2
  rw [h]
  rfl

/-- C10 (code bug): the environment value `constructor` is not one of
debug/info/warn/error after lowercasing, yet `parseLogLevel` does not fall
back to `info`: the JavaScript `in` test also sees the inherited
`Object.prototype.constructor`, and the unchecked `as LogLevel` cast lets
the string through as the configured level.  Under it every rank
comparison is against NaN and therefore false, so even debug entries are
emitted — whereas the `info` level the claim (and the function's declared
return type) prescribes would suppress them.  The surrounding rank rule is
also recorded: an entry is emitted exactly when its rank is at least a
recognized configured level's rank, so error entries are emitted under
every configuration. -/
theorem C10_log_level_fallback_bug :
    parseLogLevel (some "constructor") = "constructor"
    ∧ parseLogLevel (some "constructor") ≠ "info"
    ∧ logEmits (parseLogLevel (some "constructor")) .debug = true
    ∧ logEmits "info" .debug = false
    ∧ parseLogLevel none = "info"
    ∧ parseLogLevel (some "VERBOSE") = "info"
    ∧ (∀ currentLevel : String, logEmits currentLevel .error = true) := by
  refine ⟨by rfl, by decide, by rfl, by rfl, by rfl, by rfl, logEmits_error⟩
